import Mathlib

/-!
Verification of the text-location and match-resolution engine of the
paddle-ocr repository (`ocr.py`, `ocr_server.py`, `main.py`).

Shallow embedding conventions:
* Python strings are `List Char`; `str.lower()` is `Char.toLower` mapped over
  the characters (the claims only exercise ASCII text, where the two agree);
  Python's substring test `a in b` is the executable `substrOf`.
* Pixel coordinates are `Int` (Python ints); Python float arithmetic
  (`h * 0.4`, running means, `gap / avg_width`) is modelled exactly over `ℚ`.
* Python `//` (floor division) is `Int.fdiv`.
* Python's stable `list.sort` / `sorted` is `List.mergeSort`, which is stable.
* `Option` models Python `None`; Python truthiness of strings (`if near:`)
  is modelled by explicit emptiness tests where the code relies on it.
-/

namespace PaddleOcr

/-- Axis-aligned bounding box `[x1, y1, x2, y2]` as stored in `item["bbox"]`. -/
structure BBox where
  x1 : Int
  y1 : Int
  x2 : Int
  y2 : Int
  deriving DecidableEq

/-- One recognized OCR item (`ocr.py:65-71` / `ocr_server.py:95-101`).
The float confidence `score` is carried by the code but read by none of the
logic the claims concern, so it is not modelled. -/
structure Item where
  text : List Char
  box : List (Int × Int)
  bbox : BBox
  center : Int × Int
  deriving DecidableEq

/-- Python `str.lower()`. -/
def lowerStr (s : List Char) : List Char := s.map Char.toLower

/-- Python `needle in hay` for strings: contiguous-substring test. -/
def substrOf (needle : List Char) : List Char → Bool
  | [] => needle.isEmpty
  | c :: rest => needle.isPrefixOf (c :: rest) || substrOf needle rest

/-- The text filter of the resolver (`ocr.py:206-211` / `ocr_server.py:213-218`):
keep under `exact` iff `item["text"] == target`; otherwise iff
`target.lower() in item["text"].lower()`. -/
def textMatch (exact : Bool) (target text : List Char) : Bool :=
  if exact then text == target
  else substrOf (lowerStr target) (lowerStr text)

/-- The region filter (`ocr.py:213-227` / `ocr_server.py:220-233`).
Runs only when both a region string and an image size are present
(`if region and img_size:`); an empty region string is falsy in Python, and a
region string matching none of the five branches falls through and keeps the
item. Each branch keeps the item iff its `continue` condition is false. -/
def regionKeep (region : Option (List Char)) (imgSize : Option (Int × Int))
    (c : Int × Int) : Bool :=
  match region, imgSize with
  | some r, some (w, h) =>
    if r.isEmpty then true
    else
      let cx := c.1
      let cy := c.2
      if r == "top".data then !(decide ((cy : ℚ) > (h : ℚ) * 0.4))
      else if r == "bottom".data then !(decide ((cy : ℚ) < (h : ℚ) * 0.6))
      else if r == "left".data then !(decide ((cx : ℚ) > (w : ℚ) * 0.4))
      else if r == "right".data then !(decide ((cx : ℚ) < (w : ℚ) * 0.6))
      else if r == "center".data then
        decide ((w : ℚ) * 0.3 < (cx : ℚ) ∧ (cx : ℚ) < (w : ℚ) * 0.7 ∧
                (h : ℚ) * 0.3 < (cy : ℚ) ∧ (cy : ℚ) < (h : ℚ) * 0.7)
      else true
  | _, _ => true

/-- Squared Euclidean distance used for `near` ranking
(`ocr.py:235-238` / `ocr_server.py:242-245`). -/
def dist2 (a b : Int × Int) : Int := (a.1 - b.1) ^ 2 + (a.2 - b.2) ^ 2

/-- Comparison fed to the stable sort in `candidates.sort(key=distance)`. -/
def distLe (a : Int × Int) (i j : Item) : Bool :=
  decide (dist2 i.center a ≤ dist2 j.center a)

/-- The ephemeral query taken by the resolver (`find_text_item` arguments /
`FindTextRequest`). -/
structure Query where
  target : List Char
  exact : Bool
  region : Option (List Char)
  near : Option (List Char)
  imgSize : Option (Int × Int)
  deriving DecidableEq

/-- Proximity anchor (`ocr.py:196-201` / `ocr_server.py:203-208`): when `near`
is a non-empty string, the center of the first item whose lowercased text
contains the lowercased `near` string; `none` otherwise. -/
def nearAnchor (near : Option (List Char)) (items : List Item) :
    Option (Int × Int) :=
  match near with
  | none => none
  | some s =>
    if s.isEmpty then none
    else (items.find? fun it => substrOf (lowerStr s) (lowerStr it.text)).map
      (fun it => it.center)

/-- Candidate set surviving the text and region filters
(`ocr.py:204-229` / `ocr_server.py:211-235`). -/
def candidatesOf (items : List Item) (q : Query) : List Item :=
  items.filter fun it =>
    textMatch q.exact q.target it.text && regionKeep q.region q.imgSize it.center

/-- Ranking step (`ocr.py:234-239`): when an anchor exists and more than one
candidate survives, stable-sort by squared distance from the anchor. -/
def rankCandidates (nc : Option (Int × Int)) (candidates : List Item) :
    List Item :=
  match nc with
  | some a =>
    if 1 < candidates.length then candidates.mergeSort (distLe a) else candidates
  | none => candidates

/-- The match resolver `find_text_item` (`ocr.py:184-241`, local path; the
server's `/find` handler `ocr_server.py:193-248` runs the same logic). -/
def findTextItem (items : List Item) (q : Query) : Option Item :=
  let candidates := candidatesOf items q
  if candidates.isEmpty then none
  else (rankCandidates (nearAnchor q.near items) candidates).head?

/-- Centers of all items passing the text filter, in recognition order
(`ocr.py:122-130`). -/
def matchCenters (items : List Item) (target : List Char) (exact : Bool) :
    List (Int × Int) :=
  (items.filter fun it => textMatch exact target it.text).map fun it => it.center

/-- Return shape of `ocr.py`'s `find_text`: `None`, a single center, or a list
of centers. -/
inductive FindResult where
  | nothing : FindResult
  | single : Int × Int → FindResult
  | multiple : List (Int × Int) → FindResult
  deriving DecidableEq

/-- `find_text` (`ocr.py:103-137`): collect the centers of matching items; on
no match return `None`; else all matches or the first one. -/
def findText (items : List Item) (target : List Char)
    (exact allMatches : Bool) : FindResult :=
  match matchCenters items target exact with
  | [] => FindResult.nothing
  | c :: cs => if allMatches then FindResult.multiple (c :: cs) else FindResult.single c

/-- Per-item heights `bbox[3] - bbox[1]` (`ocr_server.py:112`). -/
def heightsOf (items : List Item) : List Int :=
  items.map fun it => it.bbox.y2 - it.bbox.y1

/-- Line-clustering threshold (`ocr_server.py:113`):
`sorted(heights)[len(heights) // 2] * 0.6`. -/
def lineThresh (items : List Item) : ℚ :=
  let sortedH := (heightsOf items).mergeSort fun a b => decide (a ≤ b)
  ((sortedH.getD (sortedH.length / 2) 0 : Int) : ℚ) * 0.6

/-- Loop state of the y-clustering pass (`ocr_server.py:117-119`):
the current line, its running mean y, and the closed lines so far. -/
structure ClusterState where
  current : List Item
  currentY : ℚ
  lines : List (List Item)

/-- Running mean of the `center.y` values of a line (`ocr_server.py:128`). -/
def meanY (l : List Item) : ℚ :=
  (l.map fun it => (it.center.2 : ℚ)).sum / l.length

/-- One iteration of the clustering loop (`ocr_server.py:121-132`). -/
def clusterStep (thresh : ℚ) (st : ClusterState) (item : Item) : ClusterState :=
  let cy : ℚ := (item.center.2 : ℚ)
  match st.current with
  | [] => ⟨[item], cy, st.lines⟩
  | _ =>
    if |cy - st.currentY| ≤ thresh then
      let cur := st.current ++ [item]
      ⟨cur, meanY cur, st.lines⟩
    else
      ⟨[item], cy, st.lines ++ [st.current]⟩

/-- Closing the last line after the loop (`ocr_server.py:133-134`). -/
def closeLines (st : ClusterState) : List (List Item) :=
  if st.current.isEmpty then st.lines else st.lines ++ [st.current]

/-- The whole clustering pass over y-sorted items (`ocr_server.py:115-134`). -/
def clusterLines (thresh : ℚ) (sortedByY : List Item) : List (List Item) :=
  closeLines (sortedByY.foldl (clusterStep thresh) ⟨[], 0, []⟩)

/-- Word-boundary decision (`ocr_server.py:146-159`): gap between the previous
right edge and the current left edge, relative test for wide blocks, absolute
test for narrow ones. -/
def shouldSpace (prev cur : BBox) : Bool :=
  let gap : Int := cur.x1 - prev.x2
  let prevWidth : Int := prev.x2 - prev.x1
  let currWidth : Int := cur.x2 - cur.x1
  let avgBlockWidth : ℚ := ((prevWidth : Int) + currWidth : Int) / 2
  if avgBlockWidth > 100 then decide ((gap : ℚ) / avgBlockWidth > 0.2)
  else decide (gap > 30)

/-- Joining the non-first items of a line, tracking `prev_bbox`
(`ocr_server.py:143-164`). -/
def joinLineAux (prevB : BBox) : List Item → List Char
  | [] => []
  | it :: rest =>
    (if shouldSpace prevB it.bbox then [' '] else []) ++ it.text ++
      joinLineAux it.bbox rest

/-- One line of output: sort by left edge `bbox[0]`, then join with heuristic
spaces; no space before the first item (`ocr_server.py:138-165`). -/
def renderLine (line : List Item) : List Char :=
  match line.mergeSort fun a b => decide (a.bbox.x1 ≤ b.bbox.x1) with
  | [] => []
  | first :: rest => first.text ++ joinLineAux first.bbox rest

/-- Python `sep.join(lines)`. -/
def joinWith (c : Char) : List (List Char) → List Char
  | [] => []
  | [l] => l
  | l :: ls => l ++ c :: joinWith c ls

/-- `_build_text` (`ocr_server.py:106-167`): empty on empty input, else
cluster the y-sorted items into lines and join with newlines. -/
def buildText (items : List Item) : List Char :=
  if items.isEmpty then []
  else
    let sortedByY := items.mergeSort fun a b => decide (a.center.2 ≤ b.center.2)
    joinWith '\n' ((clusterLines (lineThresh items) sortedByY).map renderLine)

/-- Item construction from a recognized polygon (`ocr.py:56-71` /
`ocr_server.py:86-101`): integer points, centroid by floor-mean (`// 4`),
bbox by coordinate-wise min/max. -/
def mkItem (txt : List Char) (p0 p1 p2 p3 : Int × Int) : Item :=
  ⟨txt, [p0, p1, p2, p3],
   ⟨min (min (min p0.1 p1.1) p2.1) p3.1,
    min (min (min p0.2 p1.2) p2.2) p3.2,
    max (max (max p0.1 p1.1) p2.1) p3.1,
    max (max (max p0.2 p1.2) p2.2) p3.2⟩,
   ((p0.1 + p1.1 + p2.1 + p3.1).fdiv 4, (p0.2 + p1.2 + p2.2 + p3.2).fdiv 4)⟩

/-- The centroid formula of the spec applied to a bbox: floor-mean of the two
corner coordinates on each axis. -/
def bboxCentroid (b : BBox) : Int × Int :=
  ((b.x1 + b.x2).fdiv 2, (b.y1 + b.y2).fdiv 2)

/-- Diagnostic text dump of `main.py`'s not-found branch (`main.py:145-146`):
`[i["text"] for i in items[:15]]`. -/
def notFoundTexts (items : List Item) : List (List Char) :=
  (items.take 15).map fun it => it.text

/-- Diagnostic text dump of the server's `/find` not-found response
(`ocr_server.py:238`): `[i["text"] for i in items]`, with no bound. -/
def serverNotFoundTexts (items : List Item) : List (List Char) :=
  items.map fun it => it.text

/-- Terminal outcome of the post-click verification step of `screenshot_ocr`. -/
inductive ClickOutcome where
  | success : ClickOutcome
  | expectFailed : ClickOutcome
  | stillExists : ClickOutcome
  deriving DecidableEq

/-- Python `" ".join(texts)` (`main.py:109`). -/
def joinSpace (texts : List (List Char)) : List Char := joinWith ' ' texts

/-- Post-click verification of the click workflow (`main.py:103-135`): with a
non-positive wait the whole verification block is skipped; otherwise the
space-joined blob of newly recognized texts is checked case-insensitively
against `expect_text` (must occur) and then `expect_gone` (must not occur).
An absent or empty expectation string is falsy in Python and is skipped. -/
def postClickVerify (waitAfterClick : ℚ) (expectText expectGone : Option (List Char))
    (newTexts : List (List Char)) : ClickOutcome :=
  if waitAfterClick > 0 then
    let blob := joinSpace newTexts
    if (match expectText with
        | some s => !s.isEmpty && !substrOf (lowerStr s) (lowerStr blob)
        | none => false) then ClickOutcome.expectFailed
    else if (match expectGone with
        | some s => !s.isEmpty && substrOf (lowerStr s) (lowerStr blob)
        | none => false) then ClickOutcome.stillExists
    else ClickOutcome.success
  else ClickOutcome.success

/-! Spec-side rendering of the five-step `build_text` algorithm, written from
the specification's wording (threshold `median(heights) × 0.6` with the code's
upper-median convention `sorted[len // 2]`, greedy clustering against the
running mean, per-line sort by left edge, the space criterion as the spec's
disjunction, newline join). It is compared with `buildText` above. -/

/-- Median of the spec: middle element of the sorted list (`sorted[len // 2]`). -/
def medianOf (l : List Int) : Int :=
  (l.mergeSort fun a b => decide (a ≤ b)).getD (l.length / 2) 0

/-- Horizontal gap between the previous item's right edge and the current
item's left edge. -/
def gapOf (prev cur : BBox) : Int := cur.x1 - prev.x2

/-- Mean of the two block widths. -/
def avgWidth (prev cur : BBox) : ℚ :=
  ((prev.x2 - prev.x1 + (cur.x2 - cur.x1) : Int) : ℚ) / 2

/-- The spec's word-boundary criterion: a space exactly when the mean width
exceeds 100 and the relative gap exceeds 0.2, or the mean width is at most 100
and the absolute gap exceeds 30. -/
def spaceCriterion (prev cur : BBox) : Prop :=
  (avgWidth prev cur > 100 ∧ (gapOf prev cur : ℚ) / avgWidth prev cur > 0.2) ∨
  (avgWidth prev cur ≤ 100 ∧ gapOf prev cur > 30)

instance (p c : BBox) : Decidable (spaceCriterion p c) := by
  unfold spaceCriterion
  infer_instance

/-- Spec-side join of the non-first items of a line. -/
def joinLineSpecAux (prevB : BBox) : List Item → List Char
  | [] => []
  | it :: rest =>
    (if spaceCriterion prevB it.bbox then [' '] else []) ++ it.text ++
      joinLineSpecAux it.bbox rest

/-- Spec-side rendering of one line: sort by left edge, join, no space before
the first item. -/
def renderLineSpec (line : List Item) : List Char :=
  match line.mergeSort fun a b => decide (a.bbox.x1 ≤ b.bbox.x1) with
  | [] => []
  | first :: rest => first.text ++ joinLineSpecAux first.bbox rest

/-- Spec-side greedy clustering: walk the y-sorted items, keeping an item in
the current line iff its `center.y` is within the threshold of the line's
running mean, else closing the line. -/
def clusterSpecAux (thresh : ℚ) : List Item → List Item → ℚ → List (List Item)
  | [], cur, _ => [cur]
  | it :: rest, cur, curY =>
    if |(it.center.2 : ℚ) - curY| ≤ thresh then
      clusterSpecAux thresh rest (cur ++ [it]) (meanY (cur ++ [it]))
    else
      cur :: clusterSpecAux thresh rest [it] (it.center.2 : ℚ)

/-- Spec-side clustering entry point. -/
def clusterSpec (thresh : ℚ) : List Item → List (List Item)
  | [] => []
  | it :: rest => clusterSpecAux thresh rest [it] (it.center.2 : ℚ)

/-- The five-step algorithm as the spec states it. -/
def buildTextSpec (items : List Item) : List Char :=
  if items.isEmpty then []
  else
    joinWith '\n'
      ((clusterSpec (((medianOf (heightsOf items) : Int) : ℚ) * (3 / 5))
          (items.mergeSort fun a b => decide (a.center.2 ≤ b.center.2))).map
        renderLineSpec)

lemma lineThresh_eq (items : List Item) :
    lineThresh items = ((medianOf (heightsOf items) : Int) : ℚ) * (3 / 5) := by
  unfold lineThresh medianOf
  simp only [List.length_mergeSort]
  norm_num

lemma shouldSpace_iff (p c : BBox) :
    shouldSpace p c = true ↔ spaceCriterion p c := by
  have hs : shouldSpace p c =
      (if avgWidth p c > 100 then decide ((gapOf p c : ℚ) / avgWidth p c > 0.2)
       else decide (gapOf p c > 30)) := rfl
  rw [hs]
  unfold spaceCriterion
  by_cases h : avgWidth p c > 100
  · rw [if_pos h]
    simp only [decide_eq_true_eq]
    constructor
    · intro hg
      exact Or.inl ⟨h, hg⟩
    · rintro (⟨_, hg⟩ | ⟨hle, _⟩)
      · exact hg
      · linarith
  · rw [if_neg h]
    simp only [decide_eq_true_eq]
    constructor
    · intro hg
      exact Or.inr ⟨not_lt.mp h, hg⟩
    · rintro (⟨hgt, _⟩ | ⟨_, hg⟩)
      · exact absurd hgt h
      · exact hg

lemma joinLineAux_eq_spec (p : BBox) (l : List Item) :
    joinLineAux p l = joinLineSpecAux p l := by
  induction l generalizing p with
  | nil => rfl
  | cons it rest ih =>
    simp only [joinLineAux, joinLineSpecAux, ih]
    by_cases h : spaceCriterion p it.bbox
    · rw [if_pos ((shouldSpace_iff p it.bbox).mpr h), if_pos h]
    · rw [if_neg (fun hc => h ((shouldSpace_iff p it.bbox).mp hc)), if_neg h]

lemma renderLine_eq_spec (line : List Item) :
    renderLine line = renderLineSpec line := by
  unfold renderLine renderLineSpec
  cases line.mergeSort fun a b => decide (a.bbox.x1 ≤ b.bbox.x1) with
  | nil => rfl
  | cons first rest => simp only [joinLineAux_eq_spec]

lemma clusterLines_fold_eq (thresh : ℚ) (rest : List Item) :
    ∀ (a : Item) (t : List Item) (curY : ℚ) (lines : List (List Item)),
      closeLines (rest.foldl (clusterStep thresh) ⟨a :: t, curY, lines⟩) =
        lines ++ clusterSpecAux thresh rest (a :: t) curY := by
  induction rest with
  | nil =>
    intro a t curY lines
    simp [closeLines, clusterSpecAux]
  | cons it rest ih =>
    intro a t curY lines
    simp only [List.foldl_cons, clusterStep, clusterSpecAux]
    by_cases hc : |(it.center.2 : ℚ) - curY| ≤ thresh
    · rw [if_pos hc, if_pos hc]
      have hcons : (a :: t) ++ [it] = a :: (t ++ [it]) := by simp
      rw [hcons] at *
      exact ih a (t ++ [it]) (meanY (a :: (t ++ [it]))) lines
    · rw [if_neg hc, if_neg hc]
      rw [ih it [] (it.center.2 : ℚ) (lines ++ [a :: t])]
      simp

lemma clusterLines_eq_spec (thresh : ℚ) (l : List Item) :
    clusterLines thresh l = clusterSpec thresh l := by
  cases l with
  | nil => simp [clusterLines, closeLines, clusterSpec]
  | cons it rest =>
    unfold clusterLines clusterSpec
    simp only [List.foldl_cons, clusterStep]
    have := clusterLines_fold_eq thresh rest it [] (it.center.2 : ℚ) []
    simpa using this

lemma buildText_eq_spec (items : List Item) :
    buildText items = buildTextSpec items := by
  unfold buildText buildTextSpec
  by_cases h : items.isEmpty
  · simp [h]
  · simp only [h, Bool.false_eq_true, if_false]
    rw [clusterLines_eq_spec, lineThresh_eq]
    have hr : renderLine = renderLineSpec := funext renderLine_eq_spec
    rw [hr]

lemma substrOf_iff (n : List Char) (h : List Char) :
    substrOf n h = true ↔ n <:+: h := by
  induction h with
  | nil =>
    simp [substrOf, List.isEmpty_iff]
  | cons c rest ih =>
    simp [substrOf, Bool.or_eq_true, List.isPrefixOf_iff_prefix, ih,
      List.infix_cons_iff]

lemma mem_of_head?_eq_some {α : Type} {l : List α} {a : α}
    (h : l.head? = some a) : a ∈ l := by
  cases l with
  | nil => simp at h
  | cons b t =>
    simp only [List.head?_cons, Option.some.injEq] at h
    subst h
    exact List.mem_cons_self b t

lemma head?_mergeSort_min {α : Type} (le : α → α → Bool)
    (htrans : ∀ a b c, le a b = true → le b c = true → le a c = true)
    (htotal : ∀ a b, (le a b || le b a) = true)
    (l : List α) (x : α) (hx : (l.mergeSort le).head? = some x) :
    x ∈ l ∧ ∀ y ∈ l, le x y = true := by
  have hperm := List.mergeSort_perm l le
  have hsorted := List.sorted_mergeSort htrans htotal l
  cases hms : l.mergeSort le with
  | nil => rw [hms] at hx; simp at hx
  | cons a t =>
    rw [hms] at hx hperm hsorted
    simp only [List.head?_cons, Option.some.injEq] at hx
    subst hx
    constructor
    · exact hperm.mem_iff.mp (List.mem_cons_self _ _)
    · intro y hy
      have hmem : y ∈ a :: t := hperm.mem_iff.mpr hy
      rcases List.mem_cons.mp hmem with rfl | hyt
      · have := htotal y y
        rwa [Bool.or_self] at this
      · exact (List.pairwise_cons.mp hsorted).1 y hyt

lemma rankCandidates_perm (nc : Option (Int × Int)) (c : List Item) :
    (rankCandidates nc c).Perm c := by
  cases nc with
  | none => exact List.Perm.refl c
  | some a =>
    unfold rankCandidates
    by_cases hl : 1 < c.length
    · simp only [hl, if_true]
      exact List.mergeSort_perm c (distLe a)
    · simp only [hl, if_false]
      exact List.Perm.refl c

lemma regionKeep_top_iff (w hh cx cy : Int) :
    regionKeep (some "top".data) (some (w, hh)) (cx, cy) = true ↔
      (cy : ℚ) ≤ (hh : ℚ) * 0.4 := by
  show (!(decide ((cy : ℚ) > (hh : ℚ) * 0.4))) = true ↔ _
  simp [not_lt]

lemma regionKeep_bottom_iff (w hh cx cy : Int) :
    regionKeep (some "bottom".data) (some (w, hh)) (cx, cy) = true ↔
      (hh : ℚ) * 0.6 ≤ (cy : ℚ) := by
  show (!(decide ((cy : ℚ) < (hh : ℚ) * 0.6))) = true ↔ _
  simp [not_lt]

lemma regionKeep_left_iff (w hh cx cy : Int) :
    regionKeep (some "left".data) (some (w, hh)) (cx, cy) = true ↔
      (cx : ℚ) ≤ (w : ℚ) * 0.4 := by
  show (!(decide ((cx : ℚ) > (w : ℚ) * 0.4))) = true ↔ _
  simp [not_lt]

lemma regionKeep_right_iff (w hh cx cy : Int) :
    regionKeep (some "right".data) (some (w, hh)) (cx, cy) = true ↔
      (w : ℚ) * 0.6 ≤ (cx : ℚ) := by
  show (!(decide ((cx : ℚ) < (w : ℚ) * 0.6))) = true ↔ _
  simp [not_lt]

lemma regionKeep_center_iff (w hh cx cy : Int) :
    regionKeep (some "center".data) (some (w, hh)) (cx, cy) = true ↔
      ((w : ℚ) * 0.3 < (cx : ℚ) ∧ (cx : ℚ) < (w : ℚ) * 0.7 ∧
       (hh : ℚ) * 0.3 < (cy : ℚ) ∧ (cy : ℚ) < (hh : ℚ) * 0.7) := by
  show (decide ((w : ℚ) * 0.3 < (cx : ℚ) ∧ (cx : ℚ) < (w : ℚ) * 0.7 ∧
       (hh : ℚ) * 0.3 < (cy : ℚ) ∧ (cy : ℚ) < (hh : ℚ) * 0.7)) = true ↔ _
  simp [decide_eq_true_eq]

lemma regionKeep_unknown (r : List Char) (w hh : Int) (c : Int × Int)
    (h1 : r ≠ "top".data) (h2 : r ≠ "bottom".data) (h3 : r ≠ "left".data)
    (h4 : r ≠ "right".data) (h5 : r ≠ "center".data) :
    regionKeep (some r) (some (w, hh)) c = true := by
  unfold regionKeep
  by_cases he : r.isEmpty
  · simp [he]
  · simp [he, h1, h2, h3, h4, h5]

/-! Concrete items used by the witness theorems. -/

def itemA : Item := ⟨"Login".data, [], ⟨0, 0, 10, 10⟩, (0, 0)⟩

def itemB : Item := ⟨"post one".data, [], ⟨100, 0, 120, 10⟩, (110, 5)⟩

def itemC : Item := ⟨"post two".data, [], ⟨20, 0, 40, 10⟩, (30, 5)⟩

def qPlain : Query := ⟨"post".data, false, none, none, none⟩

def qMiss : Query := ⟨"zzz".data, false, none, none, none⟩

def qNear : Query := ⟨"post".data, false, none, some "login".data, none⟩

/-- C1: the resolver's text filter admits an item under `exact=true` iff the
item's text equals the target character-for-character, and under `exact=false`
iff the lowercased target is a contiguous substring of the lowercased text;
in particular `"Post"` does not exact-match `"posts"` but does
substring-match it. -/
theorem text_filter_exact_and_substring :
    (∀ target text : List Char,
       (textMatch true target text = true ↔ text = target) ∧
       (textMatch false target text = true ↔
         lowerStr target <:+: lowerStr text)) ∧
    textMatch true "Post".data "posts".data = false ∧
    textMatch false "Post".data "posts".data = true := by
  refine ⟨fun target text => ⟨?_, ?_⟩, by decide, by decide⟩
  · simp [textMatch]
  · simp [textMatch, substrOf_iff]

/-- C2: the region filter keeps an item under `top` iff `cy ≤ 0.4h`, `bottom`
iff `cy ≥ 0.6h`, `left` iff `cx ≤ 0.4w`, `right` iff `cx ≥ 0.6w`, and
`center` iff `0.3w < cx < 0.7w` and `0.3h < cy < 0.7h`; an item at center
`(0.5w, 0.5h)` of a positive-size image passes `center` only. -/
theorem region_filter_bands :
    (∀ w hh cx cy : Int,
       (regionKeep (some "top".data) (some (w, hh)) (cx, cy) = true ↔
         (cy : ℚ) ≤ (hh : ℚ) * 0.4) ∧
       (regionKeep (some "bottom".data) (some (w, hh)) (cx, cy) = true ↔
         (hh : ℚ) * 0.6 ≤ (cy : ℚ)) ∧
       (regionKeep (some "left".data) (some (w, hh)) (cx, cy) = true ↔
         (cx : ℚ) ≤ (w : ℚ) * 0.4) ∧
       (regionKeep (some "right".data) (some (w, hh)) (cx, cy) = true ↔
         (w : ℚ) * 0.6 ≤ (cx : ℚ)) ∧
       (regionKeep (some "center".data) (some (w, hh)) (cx, cy) = true ↔
         ((w : ℚ) * 0.3 < (cx : ℚ) ∧ (cx : ℚ) < (w : ℚ) * 0.7 ∧
          (hh : ℚ) * 0.3 < (cy : ℚ) ∧ (cy : ℚ) < (hh : ℚ) * 0.7))) ∧
    (∀ w hh cx cy : Int, 0 < w → 0 < hh → 2 * cx = w → 2 * cy = hh →
       regionKeep (some "center".data) (some (w, hh)) (cx, cy) = true ∧
       regionKeep (some "top".data) (some (w, hh)) (cx, cy) = false ∧
       regionKeep (some "bottom".data) (some (w, hh)) (cx, cy) = false ∧
       regionKeep (some "left".data) (some (w, hh)) (cx, cy) = false ∧
       regionKeep (some "right".data) (some (w, hh)) (cx, cy) = false) := by
  constructor
  · intro w hh cx cy
    exact ⟨regionKeep_top_iff w hh cx cy, regionKeep_bottom_iff w hh cx cy,
      regionKeep_left_iff w hh cx cy, regionKeep_right_iff w hh cx cy,
      regionKeep_center_iff w hh cx cy⟩
  · intro w hh cx cy hw hhpos hcx hcy
    have hwQ : (w : ℚ) = 2 * (cx : ℚ) := by exact_mod_cast hcx.symm
    have hhQ : (hh : ℚ) = 2 * (cy : ℚ) := by exact_mod_cast hcy.symm
    have hcxQ : (0 : ℚ) < (cx : ℚ) := by
      exact_mod_cast (by omega : (0 : Int) < cx)
    have hcyQ : (0 : ℚ) < (cy : ℚ) := by
      exact_mod_cast (by omega : (0 : Int) < cy)
    refine ⟨?_, ?_, ?_, ?_, ?_⟩
    · rw [regionKeep_center_iff, hwQ, hhQ]
      refine ⟨by linarith, by linarith, by linarith, by linarith⟩
    · rw [Bool.eq_false_iff, Ne, regionKeep_top_iff, hhQ]
      intro hle
      linarith
    · rw [Bool.eq_false_iff, Ne, regionKeep_bottom_iff, hhQ]
      intro hle
      linarith
    · rw [Bool.eq_false_iff, Ne, regionKeep_left_iff, hwQ]
      intro hle
      linarith
    · rw [Bool.eq_false_iff, Ne, regionKeep_right_iff, hwQ]
      intro hle
      linarith

/-- Witness for C2 at a 10×10 image with the item at (5, 5). -/
theorem region_filter_bands_witness :
    regionKeep (some "center".data) (some (10, 10)) (5, 5) = true ∧
    regionKeep (some "top".data) (some (10, 10)) (5, 5) = false ∧
    regionKeep (some "bottom".data) (some (10, 10)) (5, 5) = false ∧
    regionKeep (some "left".data) (some (10, 10)) (5, 5) = false ∧
    regionKeep (some "right".data) (some (10, 10)) (5, 5) = false :=
  region_filter_bands.2 10 10 5 5 (by decide) (by decide) (by decide) (by decide)

/-- C4: the resolver only ever returns an element of its input item list, and
returns `none` whenever the filtered candidate set is empty. -/
theorem resolver_narrows_input :
    (∀ (items : List Item) (q : Query) (it : Item),
       findTextItem items q = some it → it ∈ items) ∧
    (∀ (items : List Item) (q : Query),
       candidatesOf items q = [] → findTextItem items q = none) := by
  constructor
  · intro items q it hfind
    unfold findTextItem at hfind
    by_cases hemp : (candidatesOf items q).isEmpty = true
    · simp [hemp] at hfind
    · simp only [hemp, if_false] at hfind
      have hmem :
          it ∈ rankCandidates (nearAnchor q.near items) (candidatesOf items q) :=
        mem_of_head?_eq_some hfind
      have hcand : it ∈ candidatesOf items q :=
        (rankCandidates_perm (nearAnchor q.near items)
          (candidatesOf items q)).mem_iff.mp hmem
      exact List.mem_of_mem_filter hcand
  · intro items q hempty
    unfold findTextItem
    rw [hempty]
    rfl

/-- Witness for C4: a surviving item comes from the input list, and an
unmatched target yields `none`. -/
theorem resolver_narrows_input_witness :
    itemB ∈ [itemA, itemB] ∧ findTextItem [itemA] qMiss = none :=
  ⟨resolver_narrows_input.1 [itemA, itemB] qPlain itemB (by decide),
   resolver_narrows_input.2 [itemA] qMiss (by decide)⟩

/-- C9: a region string other than the five recognized ones filters nothing:
the candidate set, and hence the resolver's answer, equal those of a query
with no region constraint. -/
theorem unknown_region_is_noop :
    ∀ (items : List Item) (t : List Char) (e : Bool)
      (near : Option (List Char)) (r : List Char) (sz : Int × Int),
      r ≠ "top".data → r ≠ "bottom".data → r ≠ "left".data →
      r ≠ "right".data → r ≠ "center".data →
      candidatesOf items ⟨t, e, some r, near, some sz⟩ =
        candidatesOf items ⟨t, e, none, near, some sz⟩ ∧
      findTextItem items ⟨t, e, some r, near, some sz⟩ =
        findTextItem items ⟨t, e, none, near, some sz⟩ := by
  intro items t e near r sz h1 h2 h3 h4 h5
  obtain ⟨w, hh⟩ := sz
  have hcand : candidatesOf items ⟨t, e, some r, near, some (w, hh)⟩ =
      candidatesOf items ⟨t, e, none, near, some (w, hh)⟩ := by
    unfold candidatesOf
    apply List.filter_congr
    intro it _
    rw [regionKeep_unknown r w hh it.center h1 h2 h3 h4 h5]
    simp [regionKeep]
  refine ⟨hcand, ?_⟩
  simp only [findTextItem]
  rw [hcand]

/-- Witness for C9 at the unrecognized region string `"middle"`. -/
theorem unknown_region_is_noop_witness :
    candidatesOf [itemA] ⟨"login".data, false, some "middle".data, none, some (100, 100)⟩ =
      candidatesOf [itemA] ⟨"login".data, false, none, none, some (100, 100)⟩ ∧
    findTextItem [itemA] ⟨"login".data, false, some "middle".data, none, some (100, 100)⟩ =
      findTextItem [itemA] ⟨"login".data, false, none, none, some (100, 100)⟩ :=
  unknown_region_is_noop [itemA] "login".data false none "middle".data (100, 100)
    (by decide) (by decide) (by decide) (by decide) (by decide)

/-- C10: `find_text` returns `None` (never an empty list) when no item
matches; with matches, `all_matches=true` returns every matching center in
recognition order and `all_matches=false` returns the first. -/
theorem find_text_result_shape :
    (∀ (items : List Item) (t : List Char) (e a : Bool),
       matchCenters items t e = [] → findText items t e a = FindResult.nothing) ∧
    (∀ (items : List Item) (t : List Char) (e a : Bool),
       findText items t e a ≠ FindResult.multiple []) ∧
    (∀ (items : List Item) (t : List Char) (e : Bool) (c : Int × Int)
       (cs : List (Int × Int)),
       matchCenters items t e = c :: cs →
       findText items t e true = FindResult.multiple (c :: cs)) ∧
    (∀ (items : List Item) (t : List Char) (e : Bool) (c : Int × Int)
       (cs : List (Int × Int)),
       matchCenters items t e = c :: cs →
       findText items t e false = FindResult.single c) := by
  refine ⟨?_, ?_, ?_, ?_⟩
  · intro items t e a hm
    unfold findText
    rw [hm]
  · intro items t e a
    unfold findText
    cases hm : matchCenters items t e with
    | nil => simp
    | cons c cs => cases a <;> simp
  · intro items t e c cs hm
    unfold findText
    rw [hm]
    rfl
  · intro items t e c cs hm
    unfold findText
    rw [hm]
    rfl

/-- Witness for C10 on concrete item lists. -/
theorem find_text_result_shape_witness :
    findText [itemA] "zzz".data false true = FindResult.nothing ∧
    findText [itemB, itemC] "post".data false true =
      FindResult.multiple [(110, 5), (30, 5)] ∧
    findText [itemB, itemC] "post".data false false = FindResult.single (110, 5) :=
  ⟨find_text_result_shape.1 [itemA] "zzz".data false true (by decide),
   find_text_result_shape.2.2.1 [itemB, itemC] "post".data false (110, 5)
     [(30, 5)] (by decide),
   find_text_result_shape.2.2.2 [itemB, itemC] "post".data false (110, 5)
     [(30, 5)] (by decide)⟩

/-- C3: the anchor is the center of the first item whose lowercased text
contains the lowercased `near` string; with an anchor and more than one
surviving candidate the resolver returns a candidate of minimal squared
distance from the anchor; with no anchor it returns the first surviving
candidate in original order (and `none`, not an error, when none survive). -/
theorem near_anchor_and_proximity_ranking :
    (∀ (items : List Item) (s : List Char), s.isEmpty = false →
       nearAnchor (some s) items =
         (items.find? fun it => substrOf (lowerStr s) (lowerStr it.text)).map
           (fun it => it.center)) ∧
    (∀ (items : List Item) (q : Query) (a : Int × Int),
       nearAnchor q.near items = some a →
       1 < (candidatesOf items q).length →
       ∃ it, findTextItem items q = some it ∧ it ∈ candidatesOf items q ∧
         ∀ c ∈ candidatesOf items q, dist2 it.center a ≤ dist2 c.center a) ∧
    (∀ (items : List Item) (q : Query),
       nearAnchor q.near items = none →
       findTextItem items q = (candidatesOf items q).head?) := by
  refine ⟨?_, ?_, ?_⟩
  · intro items s hs
    simp [nearAnchor, hs]
  · intro items q a hnc hlen
    have hne : candidatesOf items q ≠ [] := by
      intro h0
      rw [h0] at hlen
      simp at hlen
    have hemp : (candidatesOf items q).isEmpty = false := by
      rw [Bool.eq_false_iff, Ne, List.isEmpty_iff]
      exact hne
    have htrans : ∀ i j k, distLe a i j = true → distLe a j k = true →
        distLe a i k = true := by
      intro i j k hij hjk
      simp only [distLe, decide_eq_true_eq] at hij hjk ⊢
      exact le_trans hij hjk
    have htotal : ∀ i j, (distLe a i j || distLe a j i) = true := by
      intro i j
      simp only [distLe, Bool.or_eq_true, decide_eq_true_eq]
      exact le_total _ _
    simp only [findTextItem]
    rw [hnc]
    simp only [hemp, if_false]
    unfold rankCandidates
    simp only [hlen, if_true]
    cases hms : (candidatesOf items q).mergeSort (distLe a) with
    | nil =>
      exfalso
      have hp := List.mergeSort_perm (candidatesOf items q) (distLe a)
      rw [hms] at hp
      have hlen2 := hp.length_eq
      simp at hlen2
      omega
    | cons x t =>
      have hx : ((candidatesOf items q).mergeSort (distLe a)).head? = some x := by
        rw [hms]
        rfl
      obtain ⟨hmemx, hminx⟩ := head?_mergeSort_min (distLe a) htrans htotal _ x hx
      refine ⟨x, by simp, hmemx, ?_⟩
      intro c hc
      have := hminx c hc
      simpa [distLe] using this
  · intro items q hnone
    simp only [findTextItem]
    rw [hnone]
    by_cases he : (candidatesOf items q).isEmpty = true
    · rw [if_pos he, List.isEmpty_iff.mp he]
      rfl
    · rw [if_neg he]
      rfl

/-- Witness for C3: anchor `"Login"` at (0,0); of the two `"post"` candidates
the geometrically closer one is selected; without an anchor the first
candidate is returned. -/
theorem near_anchor_and_proximity_ranking_witness :
    (nearAnchor (some "login".data) [itemA, itemB, itemC] =
      (([itemA, itemB, itemC].find? fun it =>
          substrOf (lowerStr "login".data) (lowerStr it.text)).map
        (fun it => it.center))) ∧
    (∃ it, findTextItem [itemA, itemB, itemC] qNear = some it ∧
       it ∈ candidatesOf [itemA, itemB, itemC] qNear ∧
       ∀ c ∈ candidatesOf [itemA, itemB, itemC] qNear,
         dist2 it.center (0, 0) ≤ dist2 c.center (0, 0)) ∧
    findTextItem [itemA, itemB] qPlain = (candidatesOf [itemA, itemB] qPlain).head? :=
  ⟨near_anchor_and_proximity_ranking.1 [itemA, itemB, itemC] "login".data
     (by decide),
   near_anchor_and_proximity_ranking.2.1 [itemA, itemB, itemC] qNear (0, 0)
     (by decide) (by decide),
   near_anchor_and_proximity_ranking.2.2 [itemA, itemB] qPlain (by decide)⟩

/-- C5: `build_text` returns the empty string on empty input and otherwise
coincides with the spec's five-step algorithm (`0.6 ×` upper-median height
threshold, greedy running-mean clustering of y-sorted items, per-line sort by
left edge, the relative/absolute space criterion with no space before a
line's first item, newline join). -/
theorem build_text_five_steps :
    buildText [] = [] ∧ ∀ items, buildText items = buildTextSpec items :=
  ⟨rfl, buildText_eq_spec⟩

/-- C6 as stated fails: for the degenerate recognized polygon
`(0,0),(0,0),(0,0),(100,0)` the item's center is `(25,0)` but the centroid of
its bbox is `(50,0)`, off by 25, far beyond integer rounding. -/
theorem bbox_roundtrip_counterexample :
    ¬(((bboxCentroid (mkItem "x".data (0, 0) (0, 0) (0, 0) (100, 0)).bbox).1 -
        (mkItem "x".data (0, 0) (0, 0) (0, 0) (100, 0)).center.1).natAbs ≤ 1) := by
  decide

lemma min_max_fdiv (a b c d : Int) (hpar : a + c = b + d) :
    (min (min (min a b) c) d + max (max (max a b) c) d).fdiv 2 =
      (a + b + c + d).fdiv 4 := by
  have hmm : min (min (min a b) c) d + max (max (max a b) c) d = a + c := by
    omega
  have hsum : a + b + c + d = 2 * (a + c) := by omega
  rw [hmm, hsum, Int.fdiv_eq_ediv _ (by norm_num), Int.fdiv_eq_ediv _ (by norm_num)]
  omega

/-- C6 amended: when the recognized polygon is a parallelogram (as the OCR
backend's rotated rectangular detection boxes are), the centroid of the bbox
reproduces the stored center exactly. -/
theorem bbox_roundtrip_parallelogram :
    ∀ (txt : List Char) (p0 p1 p2 p3 : Int × Int),
      p0.1 + p2.1 = p1.1 + p3.1 → p0.2 + p2.2 = p1.2 + p3.2 →
      bboxCentroid (mkItem txt p0 p1 p2 p3).bbox =
        (mkItem txt p0 p1 p2 p3).center := by
  intro txt p0 p1 p2 p3 hx hy
  simp only [mkItem, bboxCentroid, Prod.mk.injEq]
  exact ⟨min_max_fdiv p0.1 p1.1 p2.1 p3.1 hx, min_max_fdiv p0.2 p1.2 p2.2 p3.2 hy⟩

/-- Witness for the amended C6 on an axis-aligned rectangle. -/
theorem bbox_roundtrip_parallelogram_witness :
    bboxCentroid (mkItem "ok".data (0, 0) (10, 0) (10, 4) (0, 4)).bbox =
      (mkItem "ok".data (0, 0) (10, 0) (10, 4) (0, 4)).center :=
  bbox_roundtrip_parallelogram "ok".data (0, 0) (10, 0) (10, 4) (0, 4)
    (by decide) (by decide)

/-- C7 as stated fails: for a 21-item recognition list the server's not-found
diagnostic lists all 21 texts, exceeding any ~15–20 bound. -/
theorem diagnostic_bound_counterexample :
    ¬((serverNotFoundTexts (List.replicate 21 itemA)).length ≤ 20) := by
  decide

/-- C7 amended: `main.py`'s not-found diagnostic lists exactly the first 15
texts (hence at most 15), while the server's not-found diagnostic lists the
texts of all items, unbounded. -/
theorem diagnostic_text_dumps :
    (∀ items : List Item,
       notFoundTexts items = (items.map fun it => it.text).take 15 ∧
       (notFoundTexts items).length ≤ 15) ∧
    (∀ items : List Item,
       serverNotFoundTexts items = (items.map fun it => it.text) ∧
       (serverNotFoundTexts items).length = items.length) := by
  constructor
  · intro items
    constructor
    · simp [notFoundTexts, List.map_take]
    · simp only [notFoundTexts, List.length_map, List.length_take]
      omega
  · intro items
    exact ⟨rfl, by simp [serverNotFoundTexts]⟩

/-- C8: zero post-click wait skips verification entirely (unconditional
success); with positive wait and a non-empty expectation string the workflow
succeeds iff the case-insensitive substring check of the expectation against
the space-joined blob of new texts passes (present for `expect`, absent for
`expect_gone`). -/
theorem post_click_verification :
    (∀ (eT eG : Option (List Char)) (ts : List (List Char)),
       postClickVerify 0 eT eG ts = ClickOutcome.success) ∧
    (∀ (w : ℚ) (s : List Char) (ts : List (List Char)), 0 < w → s ≠ [] →
       (postClickVerify w (some s) none ts = ClickOutcome.success ↔
         substrOf (lowerStr s) (lowerStr (joinSpace ts)) = true)) ∧
    (∀ (w : ℚ) (s : List Char) (ts : List (List Char)), 0 < w → s ≠ [] →
       (postClickVerify w none (some s) ts = ClickOutcome.success ↔
         ¬substrOf (lowerStr s) (lowerStr (joinSpace ts)) = true)) := by
  refine ⟨?_, ?_, ?_⟩
  · intro eT eG ts
    unfold postClickVerify
    rw [if_neg (lt_irrefl (0 : ℚ))]
  · intro w s ts hw hs
    have hse : s.isEmpty = false := by
      cases s with
      | nil => exact absurd rfl hs
      | cons c cs => rfl
    unfold postClickVerify
    rw [if_pos hw]
    cases hsub : substrOf (lowerStr s) (lowerStr (joinSpace ts)) <;>
      simp [hse, hsub]
  · intro w s ts hw hs
    have hse : s.isEmpty = false := by
      cases s with
      | nil => exact absurd rfl hs
      | cons c cs => rfl
    unfold postClickVerify
    rw [if_pos hw]
    cases hsub : substrOf (lowerStr s) (lowerStr (joinSpace ts)) <;>
      simp [hse, hsub]

/-- Witness for C8 with wait 3: `"ok"` is found in the blob, `"gone"` is not. -/
theorem post_click_verification_witness :
    postClickVerify 3 (some "ok".data) none ["page ok done".data] =
      ClickOutcome.success ∧
    postClickVerify 3 none (some "gone".data) ["page ok done".data] =
      ClickOutcome.success :=
  ⟨(post_click_verification.2.1 3 "ok".data ["page ok done".data]
      (by decide) (by decide)).mpr (by decide),
   (post_click_verification.2.2 3 "gone".data ["page ok done".data]
      (by decide) (by decide)).mpr (by decide)⟩

end PaddleOcr
